import Mathlib

/-!
Verification of the subtitles-generator pipeline.

Python strings are embedded as `List Char`; seconds values as `ℚ`.
`speech_app.py` and `video_transcriber.py` are translated function by
function below, and the testable properties of the specification are
settled against these definitions.
-/

set_option maxRecDepth 4000

unseal Rat.add Rat.mul Rat.sub Rat.inv

/-! ### Python string primitives -/

/-- Python `str.strip()`: remove leading and trailing whitespace. -/
def pyStrip (s : List Char) : List Char :=
  ((s.dropWhile Char.isWhitespace).reverse.dropWhile Char.isWhitespace).reverse

/-- Accumulator worker for Python `str.split()` (split on whitespace runs,
dropping empty pieces); `acc` holds the current word reversed. -/
def pySplitWsAux : List Char → List Char → List (List Char)
  | [], acc => if acc.isEmpty then [] else [acc.reverse]
  | c :: cs, acc =>
    if c.isWhitespace then
      if acc.isEmpty then pySplitWsAux cs [] else acc.reverse :: pySplitWsAux cs []
    else pySplitWsAux cs (c :: acc)

/-- Python `str.split()` with no argument: whitespace-delimited tokens. -/
def pySplitWs (s : List Char) : List (List Char) :=
  pySplitWsAux s []

/-! ### Python numeric primitives over ℚ -/

/-- Python `int(x)`: truncation toward zero. -/
def pyint (x : ℚ) : ℤ :=
  if 0 ≤ x then ⌊x⌋ else ⌈x⌉

/-- Python `x // y`: floor division. -/
def pyfloordiv (x y : ℚ) : ℚ :=
  (⌊x / y⌋ : ℤ)

/-- Python `x % y`: `x - y * (x // y)`. -/
def pymod (x y : ℚ) : ℚ :=
  x - y * ((⌊x / y⌋ : ℤ) : ℚ)

/-- Python `max(x, y)`: return `y` when it is strictly larger, else
`x` (kernel-reducible, unlike the lattice `max`). -/
def pymax (x y : ℚ) : ℚ :=
  if x < y then y else x

/-- Python `str(n)` for an integer value. -/
def intStr (n : ℤ) : List Char :=
  (toString n).data

/-- Python `f"{n:02d}"`: zero-pad to two digits (nonnegative case). -/
def pad2 (n : ℤ) : List Char :=
  if 0 ≤ n ∧ n < 10 then '0' :: intStr n else intStr n

/-- Python `f"{n:03d}"`: zero-pad to three digits (nonnegative case). -/
def pad3 (n : ℤ) : List Char :=
  if 0 ≤ n ∧ n < 10 then '0' :: '0' :: intStr n
  else if 0 ≤ n ∧ n < 100 then '0' :: intStr n
  else intStr n

/-! ### Segment synthesis (`speech_app.add_subtitle_segment`) -/

/-- A subtitle segment `{start, end, text}`; the `end` field is named
`stop` because `end` is reserved in Lean. -/
structure Segment where
  start : ℚ
  stop : ℚ
  text : List Char
deriving DecidableEq, Repr

/-- `speech_app.add_subtitle_segment`: on a final result with truthy
(non-empty) text, append a segment whose duration is
`max(1, word_count * 0.45)` and whose start is the previous segment's
end (0 for the first segment). -/
def add_subtitle_segment (segments : List Segment) (text : List Char) : List Segment :=
  if text ≠ [] then
    let word_count := (pySplitWs text).length
    let duration := pymax 1 ((word_count : ℚ) * (45 / 100))
    let start_time :=
      match segments.getLast? with
      | some prev => prev.stop
      | none => (0 : ℚ)
    segments ++ [{ start := start_time, stop := start_time + duration, text := text }]
  else segments

/-! ### SRT time formatting (`format_time`, identical in both scripts) -/

/-- `format_time(seconds)`: `HH:MM:SS,mmm` with floor division for
hours/minutes/seconds and truncation of the sub-second remainder. -/
def format_time (seconds : ℚ) : List Char :=
  let hours := pyint (pyfloordiv seconds 3600)
  let minutes := pyint (pyfloordiv (pymod seconds 3600) 60)
  let secs := pyint (pymod seconds 60)
  let millis := pyint ((seconds - ((pyint seconds : ℤ) : ℚ)) * 1000)
  pad2 hours ++ ':' :: pad2 minutes ++ ':' :: pad2 secs ++ ',' :: pad3 millis

/-- The `" --> "` token of an SRT time-range line. -/
def srt_arrow : List Char := " --> ".data

/-! ### SRT serialization, GUI side (`speech_app.build_srt`) -/

/-- The four lines contributed per segment by the `build_srt` loop;
`i` is the running 0-based `enumerate` index. -/
def srt_lines (i : ℕ) : List Segment → List (List Char)
  | [] => []
  | seg :: rest =>
    (toString (i + 1)).data
      :: (format_time seg.start ++ srt_arrow ++ format_time seg.stop)
      :: seg.text
      :: []
      :: srt_lines (i + 1) rest

/-- `speech_app.build_srt`: `"\n".join(srt_lines)`. -/
def build_srt (segments : List Segment) : List Char :=
  List.intercalate ['\n'] (srt_lines 0 segments)

/-! ### SRT serialization, CLI side (`video_transcriber.generate_srt`) -/

/-- The `generate_srt` loop: running index `i` and `cumulative_time`;
each text contributes four lines, with duration
`max(1.0, len(words) * 0.45)`. -/
def generate_srt_lines (i : ℕ) (cumulative_time : ℚ) : List (List Char) → List (List Char)
  | [] => []
  | text :: rest =>
    let words := pySplitWs text
    let duration := pymax 1 ((words.length : ℚ) * (45 / 100))
    let start_time := cumulative_time
    let end_time := cumulative_time + duration
    (toString (i + 1)).data
      :: (format_time start_time ++ srt_arrow ++ format_time end_time)
      :: text
      :: []
      :: generate_srt_lines (i + 1) end_time rest

/-- `video_transcriber.generate_srt` applied to the texts of the
recognition segments. -/
def generate_srt (segments : List (List Char)) : List Char :=
  List.intercalate ['\n'] (generate_srt_lines 0 0 segments)

/-- `video_transcriber`: `" ".join(seg['text'] for seg in segments)`. -/
def full_transcript (segments : List (List Char)) : List Char :=
  List.intercalate [' '] segments

/-! ### Audio format check and transcription (`video_transcriber.transcribe_audio`) -/

/-- The header fields of an opened WAV input, as read by the `wave`
module: `getnchannels()`, `getsampwidth()`, `getcomptype()`. -/
structure WavInfo where
  nchannels : ℤ
  sampwidth : ℤ
  comptype : List Char
deriving DecidableEq, Repr

/-- `video_transcriber.transcribe_audio`: reject the file before
processing any frame unless it is mono, 16-bit, uncompressed PCM;
otherwise keep exactly the engine's final results whose text is
non-empty after stripping.  The recognition engine is external, so its
committed final texts are a parameter `results`. -/
def transcribe_audio (wf : WavInfo) (results : List (List Char)) :
    Except (List Char) (List (List Char)) :=
  if wf.nchannels ≠ 1 ∨ wf.sampwidth ≠ 2 ∨ wf.comptype ≠ "NONE".data then
    Except.error "Audio file must be WAV format mono PCM.".data
  else
    Except.ok (results.filter fun t => !(pyStrip t).isEmpty)

/-! ### External decoder invocations -/

/-- `video_transcriber.extract_audio`: run ffmpeg; a failed invocation
raises `RuntimeError(f"Failed to extract audio from {video_path}")`.
The external process outcome is the parameter `ffmpeg_ok`. -/
def extract_audio (ffmpeg_ok : Bool) (video_path : List Char) : Except (List Char) Unit :=
  if ffmpeg_ok then Except.ok ()
  else Except.error ("Failed to extract audio from ".data ++ video_path)

/-- `speech_app.convert_to_wav`: run ffmpeg into `"temp_audio.wav"`;
on any failure fall back to returning the input path itself.  The
caller receives only the returned path, with no decode-outcome tag. -/
def convert_to_wav (ffmpeg_ok : Bool) (input_file : List Char) : List Char :=
  if ffmpeg_ok then "temp_audio.wav".data else input_file

/-! ### Batch processing (`video_transcriber.process_video_files`) -/

/-- The per-file outcome printed/saved by the batch loop: either the
saved artifacts of a successful file or an individually reported
error. -/
inductive BatchReport (F O E : Type) where
  | saved : F → O → BatchReport F O E
  | failed : F → E → BatchReport F O E
deriving DecidableEq, Repr

/-- `video_transcriber.process_video_files`: the `for video_file in
video_files` loop whose body is wrapped in `try/except Exception`;
the body (extract + transcribe + write, all effectful) is abstracted
as `run`.  A failing file is reported and the loop continues. -/
def process_video_files {F O E : Type} (run : F → Except E O) :
    List F → List (BatchReport F O E)
  | [] => []
  | f :: rest =>
    match run f with
    | Except.ok out => BatchReport.saved f out :: process_video_files run rest
    | Except.error e => BatchReport.failed f e :: process_video_files run rest

/-! ### Transcript accumulation (`speech_app`) -/

/-- The suffix tested by `lines[-1].endswith("(listening...)")`. -/
def listening_marker : List Char := "(listening...)".data

/-- The annotation appended to a partial line: `" (listening...)"`. -/
def listening_tag : List Char := " (listening...)".data

/-- `speech_app.update_transcript`: append the final text to the text
widget, preceded by a newline when the stripped current content is
non-empty. -/
def update_transcript (content : List Char) (text : List Char) : List Char :=
  if pyStrip content ≠ [] then content ++ '\n' :: text
  else content ++ text

/-- `speech_app.update_partial_transcript`: strip the widget content,
split into lines, replace the last line when it ends with
`"(listening...)"` and append a fresh provisional line otherwise, then
rewrite the widget with the newline-join. -/
def update_partial_transcript (content : List Char) (text : List Char) : List Char :=
  let current := pyStrip content
  let lines := current.splitOn '\n'
  let newLines :=
    match lines.getLast? with
    | some last =>
      if listening_marker.isSuffixOf last then
        lines.dropLast ++ [text ++ listening_tag]
      else
        lines ++ [text ++ listening_tag]
    | none => lines ++ [text ++ listening_tag]
  List.intercalate ['\n'] newLines

/-- A recognition result delivered to the UI callbacks: a committed
final text or a provisional partial text. -/
inductive RecEvent where
  | finalRes (text : List Char) : RecEvent
  | partRes (text : List Char) : RecEvent
deriving DecidableEq, Repr

/-- One delivery step of the recording callback: finals go through the
`if result['text']` guard into `update_transcript`, partials go to
`update_partial_transcript`. -/
def transcript_step (content : List Char) : RecEvent → List Char
  | RecEvent.finalRes t => if t ≠ [] then update_transcript content t else content
  | RecEvent.partRes t => update_partial_transcript content t

/-- A session of the transcript accumulator, starting from an empty
widget. -/
def run_transcript (events : List RecEvent) : List Char :=
  events.foldl transcript_step []

/-- A displayed line is provisional when it carries the in-progress
annotation. -/
def provisional_line (l : List Char) : Bool :=
  listening_marker.isSuffixOf l

/-- The claimed invariant: every line above the last displayed line is
non-provisional (equivalently: at most one provisional line exists and
it is the last line). -/
def transcript_invariant (content : List Char) : Bool :=
  (content.splitOn '\n').dropLast.all fun l => !(provisional_line l)

/-- No displayed line carries the provisional annotation at all. -/
@[reducible]
def no_provisional_lines (content : List Char) : Prop :=
  ∀ l ∈ content.splitOn '\n', ¬ listening_marker <:+ l

/-! ### Proof layer: the segment chain computed by the synthesizer -/

/-- The duration heuristic shared by both scripts:
`max(1, word_count * 0.45)`. -/
def seg_duration (t : List Char) : ℚ :=
  pymax 1 (((pySplitWs t).length : ℚ) * (45 / 100))

/-- The segments synthesized for a list of texts when the previous
end time is `c`: each segment starts at the running end time. -/
def chain_segments : ℚ → List (List Char) → List Segment
  | _, [] => []
  | c, t :: ts =>
    { start := c, stop := c + seg_duration t, text := t }
      :: chain_segments (c + seg_duration t) ts

/-- `self.subtitle_segments[-1]['end']`, or `0` with no segment yet. -/
def last_end (ss : List Segment) : ℚ :=
  match ss.getLast? with
  | some s => s.stop
  | none => 0

theorem pymax_eq_max (x y : ℚ) : pymax x y = max x y := by
  unfold pymax
  rcases lt_trichotomy x y with h | h | h
  · rw [if_pos h, max_eq_right h.le]
  · subst h
    simp
  · rw [if_neg (lt_asymm h), max_eq_left h.le]

theorem add_subtitle_segment_eq (ss : List Segment) (t : List Char) (ht : t ≠ []) :
    add_subtitle_segment ss t =
      ss ++ [{ start := last_end ss, stop := last_end ss + seg_duration t, text := t }] := by
  simp [add_subtitle_segment, last_end, seg_duration, ht]

theorem last_end_concat (ss : List Segment) (s : Segment) :
    last_end (ss ++ [s]) = s.stop := by
  simp [last_end, List.getLast?_concat]

theorem foldl_add_subtitle_segment (ts : List (List Char)) (ss : List Segment)
    (h : ∀ t ∈ ts, t ≠ []) :
    ts.foldl add_subtitle_segment ss = ss ++ chain_segments (last_end ss) ts := by
  induction ts generalizing ss with
  | nil => simp [chain_segments]
  | cons t ts ih =>
    have ht : t ≠ [] := h t (List.mem_cons_self t ts)
    have hrest : ∀ u ∈ ts, u ≠ [] := fun u hu => h u (List.mem_cons_of_mem t hu)
    simp only [List.foldl_cons, add_subtitle_segment_eq ss t ht, ih _ hrest,
      last_end_concat, chain_segments, List.append_assoc, List.singleton_append]

theorem chain_segments_head (c : ℚ) (ts : List (List Char)) (s : Segment)
    (h : (chain_segments c ts).get? 0 = some s) : s.start = c := by
  cases ts with
  | nil => simp [chain_segments] at h
  | cons t ts =>
    simp [chain_segments] at h
    rw [← h]

theorem chain_segments_contiguous (ts : List (List Char)) (c : ℚ) (i : ℕ)
    (s₁ s₂ : Segment) (h₁ : (chain_segments c ts).get? i = some s₁)
    (h₂ : (chain_segments c ts).get? (i + 1) = some s₂) : s₂.start = s₁.stop := by
  induction ts generalizing c i with
  | nil => simp [chain_segments] at h₁
  | cons t ts ih =>
    cases i with
    | zero =>
      simp only [chain_segments, List.get?_cons_zero, List.get?_cons_succ] at h₁ h₂
      have e₁ := Option.some.inj h₁
      rw [chain_segments_head _ _ _ h₂, ← e₁]
    | succ j =>
      simp only [chain_segments, List.get?_cons_succ] at h₁ h₂
      exact ih _ _ h₁ h₂

theorem chain_segments_duration (ts : List (List Char)) (c : ℚ) (i : ℕ)
    (s : Segment) (h : (chain_segments c ts).get? i = some s) :
    s.stop - s.start = seg_duration s.text := by
  induction ts generalizing c i with
  | nil => simp [chain_segments] at h
  | cons t ts ih =>
    cases i with
    | zero =>
      simp only [chain_segments, List.get?_cons_zero] at h
      rw [← Option.some.inj h]
      simp
    | succ j =>
      simp only [chain_segments, List.get?_cons_succ] at h
      exact ih _ _ h

theorem seg_duration_pos (t : List Char) : 0 < seg_duration t := by
  rw [seg_duration, pymax_eq_max]
  exact lt_of_lt_of_le zero_lt_one (le_max_left _ _)

theorem chain_segments_texts (c : ℚ) (ts : List (List Char)) :
    (chain_segments c ts).map Segment.text = ts := by
  induction ts generalizing c with
  | nil => rfl
  | cons t ts ih => simp [chain_segments, ih]

theorem srt_lines_chain (ts : List (List Char)) (i : ℕ) (c : ℚ) :
    srt_lines i (chain_segments c ts) = generate_srt_lines i c ts := by
  induction ts generalizing i c with
  | nil => rfl
  | cons t ts ih => simp [chain_segments, srt_lines, generate_srt_lines, seg_duration, ih]

theorem foldl_eq_chain (ts : List (List Char)) (h : ∀ t ∈ ts, t ≠ []) :
    ts.foldl add_subtitle_segment [] = chain_segments 0 ts := by
  simpa [last_end] using foldl_add_subtitle_segment ts [] h

theorem foldl_text_ne_nil (ts : List (List Char)) (ss : List Segment)
    (hss : ∀ s ∈ ss, s.text ≠ []) :
    ∀ s ∈ ts.foldl add_subtitle_segment ss, s.text ≠ [] := by
  induction ts generalizing ss with
  | nil => simpa
  | cons t ts ih =>
    intro s hs
    refine ih (add_subtitle_segment ss t) ?_ s hs
    intro s' hs'
    by_cases ht : t = []
    · subst ht
      simp only [add_subtitle_segment, ne_eq, not_true_eq_false, if_false] at hs'
      exact hss _ hs'
    · rw [add_subtitle_segment_eq ss t ht] at hs'
      rcases List.mem_append.mp hs' with hmem | hmem
      · exact hss _ hmem
      · have : s' = { start := last_end ss, stop := last_end ss + seg_duration t, text := t } :=
          List.mem_singleton.mp hmem
        rw [this]
        exact ht

theorem srt_lines_length (j : ℕ) (segs : List Segment) :
    (srt_lines j segs).length = 4 * segs.length := by
  induction segs generalizing j with
  | nil => rfl
  | cons seg rest ih =>
    simp [srt_lines, ih, Nat.mul_succ]

theorem srt_lines_get (segs : List Segment) (j i : ℕ) (h : i < segs.length) :
    (srt_lines j segs).get? (4 * i) = some (toString (j + i + 1)).data ∧
    (srt_lines j segs).get? (4 * i + 1) =
      some (format_time (segs.get ⟨i, h⟩).start ++ srt_arrow ++ format_time (segs.get ⟨i, h⟩).stop) ∧
    (srt_lines j segs).get? (4 * i + 2) = some (segs.get ⟨i, h⟩).text ∧
    (srt_lines j segs).get? (4 * i + 3) = some [] := by
  induction segs generalizing j i with
  | nil => exact absurd h (Nat.not_lt_zero i)
  | cons seg rest ih =>
    cases i with
    | zero => simp [srt_lines]
    | succ k =>
      have hk : k < rest.length := Nat.lt_of_succ_lt_succ h
      obtain ⟨ih1, ih2, ih3, ih4⟩ := ih (j + 1) k hk
      have f0 : 4 * (k + 1) = 4 * k + 1 + 1 + 1 + 1 := by ring
      have f1 : 4 * (k + 1) + 1 = 4 * k + 1 + 1 + 1 + 1 + 1 := by ring
      have f2 : 4 * (k + 1) + 2 = 4 * k + 2 + 1 + 1 + 1 + 1 := by ring
      have f3 : 4 * (k + 1) + 3 = 4 * k + 3 + 1 + 1 + 1 + 1 := by ring
      have e2 : j + (k + 1) + 1 = j + 1 + k + 1 := by ring
      rw [f3, f2, f1, f0, e2]
      simp only [srt_lines, List.get?_cons_succ, List.get_cons_succ]
      exact ⟨ih1, ih2, ih3, ih4⟩

/-! ### Claims about the segment synthesizer -/

/-- C1: for every sequence of accepted non-empty final texts, the
synthesized segments are contiguous: the first segment starts at 0,
each later segment starts at its predecessor's end, and every segment
ends strictly after it starts (so the order is non-decreasing with no
gaps or overlaps). -/
theorem segments_contiguous (ts : List (List Char)) (h : ∀ t ∈ ts, t ≠ []) :
    (∀ s, (ts.foldl add_subtitle_segment []).get? 0 = some s → s.start = 0) ∧
    (∀ i s₁ s₂, (ts.foldl add_subtitle_segment []).get? i = some s₁ →
      (ts.foldl add_subtitle_segment []).get? (i + 1) = some s₂ → s₂.start = s₁.stop) ∧
    (∀ i s, (ts.foldl add_subtitle_segment []).get? i = some s → s.start < s.stop) := by
  rw [foldl_eq_chain ts h]
  refine ⟨fun s hs => chain_segments_head _ _ _ hs,
    fun i s₁ s₂ h₁ h₂ => chain_segments_contiguous _ _ _ _ _ h₁ h₂,
    fun i s hs => ?_⟩
  have hd := chain_segments_duration _ _ _ _ hs
  have hpos := seg_duration_pos s.text
  linarith

/-- Witness for C1 at the texts `["hello world", "foo"]`. -/
theorem segments_contiguous_witness :
    ({ start := 0, stop := 1, text := "hello world".data } : Segment).start = 0 ∧
    ({ start := 1, stop := 2, text := "foo".data } : Segment).start =
      ({ start := 0, stop := 1, text := "hello world".data } : Segment).stop := by
  have h := segments_contiguous ["hello world".data, "foo".data] (by decide)
  exact ⟨h.1 _ (by decide), h.2.1 0 _ _ (by decide) (by decide)⟩

/-- C2: every synthesized segment's length is exactly
`max(1.0, w * 0.45)` where `w` is the whitespace-token count of its
text, the clamp applied per segment. -/
theorem segment_duration_formula (ts : List (List Char)) (h : ∀ t ∈ ts, t ≠ [])
    (i : ℕ) (s : Segment) (hs : (ts.foldl add_subtitle_segment []).get? i = some s) :
    s.stop - s.start = max 1 (((pySplitWs s.text).length : ℚ) * (45 / 100)) := by
  rw [foldl_eq_chain ts h] at hs
  rw [chain_segments_duration _ _ _ _ hs, seg_duration, pymax_eq_max]

/-- Witness for C2 at the single text `"foo"` (one word, clamped to 1s). -/
theorem segment_duration_formula_witness :
    ({ start := 0, stop := 1, text := "foo".data } : Segment).stop -
      ({ start := 0, stop := 1, text := "foo".data } : Segment).start =
      max 1 (((pySplitWs ("foo".data)).length : ℚ) * (45 / 100)) :=
  segment_duration_formula ["foo".data] (by decide) 0 _ (by decide)

/-- C4: an empty-text final never produces a segment: the synthesizer
leaves the segment list unchanged on empty text, every synthesized
segment carries non-empty text, and on the CLI side only texts that are
non-empty after stripping survive into the serialized document, which
has exactly four lines per surviving segment. -/
theorem empty_final_no_segment :
    (∀ ss : List Segment, add_subtitle_segment ss [] = ss) ∧
    (∀ ts : List (List Char), ∀ s ∈ ts.foldl add_subtitle_segment [], s.text ≠ []) ∧
    (∀ results : List (List Char), ∀ t ∈ results.filter (fun t => !(pyStrip t).isEmpty),
      pyStrip t ≠ []) ∧
    (∀ wf results out, transcribe_audio wf results = Except.ok out →
      out = results.filter fun t => !(pyStrip t).isEmpty) := by
  refine ⟨fun ss => rfl, fun ts s hs => foldl_text_ne_nil ts [] (by simp) s hs,
    fun results t ht => ?_, fun wf results out hok => ?_⟩
  · have := (List.mem_filter.mp ht).2
    simpa [List.isEmpty_iff] using this
  · unfold transcribe_audio at hok
    split at hok
    · exact Except.noConfusion hok
    · exact (Except.ok.inj hok).symm

/-- Witness for C4: an empty final leaves the list unchanged, and the
segment synthesized after it has non-empty text. -/
theorem empty_final_no_segment_witness :
    add_subtitle_segment [] [] = [] ∧
    ({ start := 0, stop := 1, text := ['a'] } : Segment).text ≠ [] := by
  refine ⟨empty_final_no_segment.1 [], ?_⟩
  have h := empty_final_no_segment.2.1 [[], ['a']]
  exact h _ (by decide)

/-- C10: on final texts that are non-empty after stripping, the GUI
pipeline (folding `add_subtitle_segment`, then `build_srt`) and the CLI
pipeline (`generate_srt`) emit byte-identical SRT text. -/
theorem gui_cli_srt_identical (ts : List (List Char)) (h : ∀ t ∈ ts, pyStrip t ≠ []) :
    build_srt (ts.foldl add_subtitle_segment []) = generate_srt ts := by
  have h' : ∀ t ∈ ts, t ≠ [] := by
    intro t ht he
    exact h t ht (by simp [he, pyStrip])
  rw [build_srt, foldl_eq_chain ts h', srt_lines_chain]
  rfl

/-- Witness for C10 at `["hello world", "foo"]`. -/
theorem gui_cli_srt_identical_witness :
    build_srt (["hello world".data, "foo".data].foldl add_subtitle_segment []) =
      generate_srt ["hello world".data, "foo".data] :=
  gui_cli_srt_identical ["hello world".data, "foo".data] (by decide)

/-! ### Claims about the serializer -/

/-- C5: serializing no segments yields empty output (and a session with
zero final results yields an empty subtitle document and transcript on
both pipelines), while `N` segments yield exactly `N` four-line blocks
in input order: 1-based index, time range, text, blank separator. -/
theorem srt_serialization_blocks :
    build_srt [] = [] ∧ generate_srt [] = [] ∧ full_transcript [] = [] ∧
    run_transcript [] = [] ∧
    (∀ segs : List Segment, (srt_lines 0 segs).length = 4 * segs.length) ∧
    (∀ (segs : List Segment) (i : ℕ) (h : i < segs.length),
      (srt_lines 0 segs).get? (4 * i) = some (toString (i + 1)).data ∧
      (srt_lines 0 segs).get? (4 * i + 1) =
        some (format_time (segs.get ⟨i, h⟩).start ++ srt_arrow ++
          format_time (segs.get ⟨i, h⟩).stop) ∧
      (srt_lines 0 segs).get? (4 * i + 2) = some (segs.get ⟨i, h⟩).text ∧
      (srt_lines 0 segs).get? (4 * i + 3) = some []) := by
  refine ⟨rfl, rfl, rfl, rfl, fun segs => srt_lines_length 0 segs, fun segs i h => ?_⟩
  simpa using srt_lines_get segs 0 i h

/-- Witness for C5 at a single concrete segment. -/
theorem srt_serialization_blocks_witness :
    (srt_lines 0 [{ start := 0, stop := 1, text := ['h', 'i'] }]).get? 0 =
      some (toString 1).data ∧
    (srt_lines 0 [{ start := 0, stop := 1, text := ['h', 'i'] }]).get? 3 = some [] := by
  have h := srt_serialization_blocks.2.2.2.2.2
    [{ start := 0, stop := 1, text := ['h', 'i'] }] 0 (by decide)
  exact ⟨h.1, h.2.2.2⟩

/-! ### Claims about time formatting -/

theorem pyint_intCast (z : ℤ) : pyint ((z : ℚ)) = z := by
  unfold pyint
  by_cases hz : (0 : ℚ) ≤ (z : ℚ)
  · rw [if_pos hz, Int.floor_intCast]
  · rw [if_neg hz, Int.ceil_intCast]

theorem pyint_of_nonneg (x : ℚ) (hx : 0 ≤ x) : pyint x = ⌊x⌋ :=
  if_pos hx

/-- C6: the serializer's time formatting computes the hour, minute and
second fields by floor division and the millisecond field by truncation
of the sub-second remainder (`ε` below is any sub-millisecond excess,
discarded rather than rounded), each zero-padded; in particular 3725.4
seconds formats as 01:02:05,400 (see the witness). -/
theorem format_time_fields (h m sec ms : ℕ) (ε : ℚ)
    (hh : h < 100) (hm : m < 60) (hsec : sec < 60) (hms : ms < 1000)
    (hε0 : 0 ≤ ε) (hε1 : ε < 1 / 1000) :
    format_time ((h : ℚ) * 3600 + (m : ℚ) * 60 + (sec : ℚ) + (ms : ℚ) / 1000 + ε) =
      pad2 (h : ℤ) ++ ':' :: pad2 (m : ℤ) ++ ':' :: pad2 (sec : ℤ) ++ ',' :: pad3 (ms : ℤ) := by
  have floor_eq : ∀ (z : ℤ) (r : ℚ), (z : ℚ) ≤ r → r < z + 1 → ⌊r⌋ = z :=
    fun z r h1 h2 => Int.floor_eq_iff.mpr ⟨h1, h2⟩
  set S : ℚ := (h : ℚ) * 3600 + (m : ℚ) * 60 + (sec : ℚ) + (ms : ℚ) / 1000 + ε with hS
  have h0 : (0 : ℚ) ≤ (h : ℚ) := Nat.cast_nonneg h
  have m0 : (0 : ℚ) ≤ (m : ℚ) := Nat.cast_nonneg m
  have s0 : (0 : ℚ) ≤ (sec : ℚ) := Nat.cast_nonneg sec
  have ms0 : (0 : ℚ) ≤ (ms : ℚ) := Nat.cast_nonneg ms
  have hm' : (m : ℚ) ≤ 59 := by exact_mod_cast Nat.lt_succ_iff.mp hm
  have hsec' : (sec : ℚ) ≤ 59 := by exact_mod_cast Nat.lt_succ_iff.mp hsec
  have hms' : (ms : ℚ) ≤ 999 := by exact_mod_cast Nat.lt_succ_iff.mp hms
  have hfrac0 : (0 : ℚ) ≤ (ms : ℚ) / 1000 + ε := by
    have : (0 : ℚ) ≤ (ms : ℚ) / 1000 := by linarith
    linarith
  have hfrac1 : (ms : ℚ) / 1000 + ε < 1 := by
    have : (ms : ℚ) / 1000 ≤ 999 / 1000 := by linarith
    linarith
  have e1 : ⌊S / 3600⌋ = (h : ℤ) := by
    apply floor_eq
    · push_cast
      rw [le_div_iff (by norm_num : (0 : ℚ) < 3600)]
      rw [hS]
      linarith
    · push_cast
      rw [div_lt_iff (by norm_num : (0 : ℚ) < 3600)]
      rw [hS]
      linarith
  have f1 : pyint (pyfloordiv S 3600) = (h : ℤ) := by
    simp only [pyfloordiv]
    rw [e1, pyint_intCast]
  have e2 : pymod S 3600 = (m : ℚ) * 60 + (sec : ℚ) + (ms : ℚ) / 1000 + ε := by
    simp only [pymod]
    rw [e1, hS]
    push_cast
    ring
  have e3 : ⌊((m : ℚ) * 60 + (sec : ℚ) + (ms : ℚ) / 1000 + ε) / 60⌋ = (m : ℤ) := by
    apply floor_eq
    · push_cast
      rw [le_div_iff (by norm_num : (0 : ℚ) < 60)]
      linarith
    · push_cast
      rw [div_lt_iff (by norm_num : (0 : ℚ) < 60)]
      linarith
  have f2 : pyint (pyfloordiv (pymod S 3600) 60) = (m : ℤ) := by
    simp only [pyfloordiv]
    rw [e2, e3, pyint_intCast]
  have e4 : ⌊S / 60⌋ = 60 * (h : ℤ) + (m : ℤ) := by
    apply floor_eq
    · push_cast
      rw [le_div_iff (by norm_num : (0 : ℚ) < 60)]
      rw [hS]
      linarith
    · push_cast
      rw [div_lt_iff (by norm_num : (0 : ℚ) < 60)]
      rw [hS]
      linarith
  have e5 : pymod S 60 = (sec : ℚ) + (ms : ℚ) / 1000 + ε := by
    simp only [pymod]
    rw [e4, hS]
    push_cast
    ring
  have f3 : pyint (pymod S 60) = (sec : ℤ) := by
    rw [e5, pyint_of_nonneg _ (by linarith)]
    apply floor_eq
    · push_cast
      linarith
    · push_cast
      linarith
  have e7 : pyint S = 3600 * (h : ℤ) + 60 * (m : ℤ) + (sec : ℤ) := by
    rw [pyint_of_nonneg _ (by rw [hS]; linarith)]
    apply floor_eq
    · push_cast
      rw [hS]
      linarith
    · push_cast
      rw [hS]
      linarith
  have f4 : pyint ((S - ((pyint S : ℤ) : ℚ)) * 1000) = (ms : ℤ) := by
    rw [e7]
    have e8 : (S - ((3600 * (h : ℤ) + 60 * (m : ℤ) + (sec : ℤ) : ℤ) : ℚ)) * 1000 =
        (ms : ℚ) + 1000 * ε := by
      rw [hS]
      push_cast
      ring
    rw [e8, pyint_of_nonneg _ (by linarith)]
    apply floor_eq
    · push_cast
      linarith
    · push_cast
      linarith
  simp only [format_time]
  rw [f1, f2, f3, f4]

/-- Witness for C6: 3725.4 seconds formats as `"01:02:05,400"`. -/
theorem format_time_fields_witness :
    format_time (((1 : ℕ) : ℚ) * 3600 + ((2 : ℕ) : ℚ) * 60 + ((5 : ℕ) : ℚ) +
        ((400 : ℕ) : ℚ) / 1000 + 0) = "01:02:05,400".data := by
  rw [format_time_fields 1 2 5 400 0 (by norm_num) (by norm_num) (by norm_num)
    (by norm_num) le_rfl (by norm_num)]
  decide

/-! ### Claims about the format check and batch mode -/

/-- C7: a non-conforming audio input (channels ≠ 1, sample width ≠ 2,
or compressed encoding) is rejected with the format error before any
frame is processed, producing no segments; a conforming input is never
rejected by this check. -/
theorem audio_format_check :
    (∀ wf results, (wf.nchannels ≠ 1 ∨ wf.sampwidth ≠ 2 ∨ wf.comptype ≠ "NONE".data) →
      transcribe_audio wf results =
        Except.error "Audio file must be WAV format mono PCM.".data) ∧
    (∀ wf results, wf.nchannels = 1 → wf.sampwidth = 2 → wf.comptype = "NONE".data →
      transcribe_audio wf results =
        Except.ok (results.filter fun t => !(pyStrip t).isEmpty)) := by
  constructor
  · intro wf results hbad
    simp [transcribe_audio, hbad]
  · intro wf results h1 h2 h3
    simp [transcribe_audio, h1, h2, h3]

/-- Witness for C7: a stereo file is rejected, a conforming one is not. -/
theorem audio_format_check_witness :
    transcribe_audio { nchannels := 2, sampwidth := 2, comptype := "NONE".data } [] =
      Except.error "Audio file must be WAV format mono PCM.".data ∧
    transcribe_audio { nchannels := 1, sampwidth := 2, comptype := "NONE".data }
      ["hi".data] = Except.ok ["hi".data] := by
  constructor
  · exact audio_format_check.1 _ [] (Or.inl (by decide))
  · rw [audio_format_check.2 _ ["hi".data] rfl rfl rfl]
    rfl

/-- C8: the batch loop processes every file regardless of earlier
failures: the report list has one entry per input file, in order, and
each entry is the saved artifacts of a successful file or the
individually reported error of a failed one. -/
theorem batch_isolation {F O E : Type} (run : F → Except E O) (files : List F) :
    (process_video_files run files).length = files.length ∧
    ∀ (i : ℕ) (h : i < files.length),
      (process_video_files run files).get? i =
        some (match run (files.get ⟨i, h⟩) with
          | Except.ok out => BatchReport.saved (files.get ⟨i, h⟩) out
          | Except.error e => BatchReport.failed (files.get ⟨i, h⟩) e) := by
  induction files with
  | nil => exact ⟨rfl, fun i h => absurd h (Nat.not_lt_zero i)⟩
  | cons f rest ih =>
    constructor
    · cases hr : run f <;> simp [process_video_files, hr, ih.1]
    · intro i h
      cases i with
      | zero => cases hr : run f <;> simp [process_video_files, hr]
      | succ j =>
        have hj : j < rest.length := Nat.lt_of_succ_lt_succ h
        have := ih.2 j hj
        cases hr : run f <;> simpa [process_video_files, hr] using this

/-- Witness for C8: with the middle of three files failing, the batch
still reports three entries and the file after the failure is saved. -/
theorem batch_isolation_witness :
    (process_video_files
      (fun n : ℕ => if n = 1 then Except.error (7 : ℕ) else Except.ok n)
      [0, 1, 2]).length = 3 ∧
    (process_video_files
      (fun n : ℕ => if n = 1 then Except.error (7 : ℕ) else Except.ok n)
      [0, 1, 2]).get? 1 = some (BatchReport.failed 1 7) ∧
    (process_video_files
      (fun n : ℕ => if n = 1 then Except.error (7 : ℕ) else Except.ok n)
      [0, 1, 2]).get? 2 = some (BatchReport.saved 2 2) := by
  have hb := batch_isolation
    (fun n : ℕ => if n = 1 then Except.error (7 : ℕ) else Except.ok n) [0, 1, 2]
  refine ⟨hb.1, ?_, ?_⟩
  · rw [hb.2 1 (by norm_num)]
    rfl
  · rw [hb.2 2 (by norm_num)]
    rfl

/-! ### Claims about the transcript accumulator -/

theorem modifyHead_append_left {α : Type} (f : α → α) (l m : List α) (hl : l ≠ []) :
    (l ++ m).modifyHead f = l.modifyHead f ++ m := by
  cases l with
  | nil => exact absurd rfl hl
  | cons a l => rfl

theorem splitOn_newline_append (a b : List Char) :
    (a ++ '\n' :: b).splitOn '\n' = a.splitOn '\n' ++ b.splitOn '\n' := by
  induction a with
  | nil => simp [List.splitOn]
  | cons c a ih =>
    simp only [List.cons_append, List.splitOn, List.splitOnP_cons] at ih ⊢
    by_cases hc : (c == '\n') = true
    · rw [if_pos hc, if_pos hc, ih]
      rfl
    · rw [if_neg hc, if_neg hc, ih,
        modifyHead_append_left _ _ _ (List.splitOnP_ne_nil _ a)]

theorem splitOn_no_newline (s : List Char) (h : '\n' ∉ s) : s.splitOn '\n' = [s] := by
  simp only [List.splitOn]
  apply List.splitOnP_eq_single
  intro x hx e
  exact h ((eq_of_beq e) ▸ hx)

theorem suffix_getLast_splitOn (s suf : List Char) (h : '\n' ∉ suf) :
    suf <:+ (((s ++ suf).splitOn '\n').getLast?).getD [] := by
  induction s with
  | nil =>
    rw [List.nil_append, splitOn_no_newline suf h]
    simp
  | cons c s ih =>
    rw [List.cons_append]
    simp only [List.splitOn, List.splitOnP_cons] at ih ⊢
    obtain ⟨l, ls, hL⟩ : ∃ l ls, (s ++ suf).splitOnP (· == '\n') = l :: ls := by
      cases hL : (s ++ suf).splitOnP (· == '\n') with
      | nil => exact absurd hL (List.splitOnP_ne_nil _ _)
      | cons l ls => exact ⟨l, ls, rfl⟩
    rw [hL] at ih
    by_cases hc : (c == '\n') = true
    · rw [if_pos hc, hL, List.getLast?_cons_cons]
      exact ih
    · rw [if_neg hc, hL]
      show suf <:+ (((c :: l) :: ls).getLast?).getD []
      cases ls with
      | nil =>
        simp only [List.getLast?_singleton, Option.getD_some] at ih ⊢
        exact List.IsSuffix.trans ih (List.suffix_cons c l)
      | cons l2 ls2 =>
        rw [List.getLast?_cons_cons]
        rw [List.getLast?_cons_cons] at ih
        exact ih

theorem intercalate_append_last (M : List (List Char)) (x : List Char) :
    ∃ y, List.intercalate ['\n'] (M ++ [x]) = y ++ x := by
  induction M with
  | nil =>
    refine ⟨[], ?_⟩
    simp [List.intercalate]
  | cons m M ih =>
    obtain ⟨y, hy⟩ := ih
    cases M with
    | nil =>
      refine ⟨m ++ ['\n'], ?_⟩
      simp [List.intercalate, List.intersperse]
    | cons m2 M2 =>
      refine ⟨m ++ '\n' :: y, ?_⟩
      have step : List.intercalate ['\n'] ((m :: m2 :: M2) ++ [x]) =
          m ++ '\n' :: List.intercalate ['\n'] ((m2 :: M2) ++ [x]) := by
        simp [List.intercalate, List.intersperse_cons_cons]
      rw [step, hy]
      simp

theorem suffix_last_line_of_append_tag (M : List (List Char)) (text : List Char) :
    listening_marker <:+
      (((List.intercalate ['\n'] (M ++ [text ++ listening_tag])).splitOn '\n').getLast?).getD
        [] := by
  obtain ⟨y, hy⟩ := intercalate_append_last M (text ++ listening_tag)
  rw [hy]
  have htag : y ++ (text ++ listening_tag) = (y ++ (text ++ [' '])) ++ listening_marker := by
    have h1 : listening_tag = ' ' :: listening_marker := by decide
    rw [h1]
    simp
  rw [htag]
  exact suffix_getLast_splitOn _ _ (by decide)

theorem pyStrip_eq_nil_iff (s : List Char) :
    pyStrip s = [] ↔ ∀ c ∈ s, c.isWhitespace := by
  unfold pyStrip
  rw [List.reverse_eq_nil_iff, List.dropWhile_eq_nil_iff]
  constructor
  · intro hrev c hc
    rw [← List.takeWhile_append_dropWhile (p := Char.isWhitespace) (l := s)] at hc
    rcases List.mem_append.mp hc with h1 | h2
    · exact List.mem_takeWhile_imp h1
    · exact hrev c (List.mem_reverse.mpr h2)
  · intro hall x hx
    exact hall x ((List.dropWhile_sublist _).mem (List.mem_reverse.mp hx))

theorem pyStrip_append_left_ne_nil (x y : List Char) (h : pyStrip x ≠ []) :
    pyStrip (x ++ y) ≠ [] := by
  intro hxy
  apply h
  rw [pyStrip_eq_nil_iff] at hxy ⊢
  exact fun c hc => hxy c (List.mem_append_left _ hc)

theorem no_provisional_lines_nil : no_provisional_lines [] := by decide

theorem run_finals_aux (ts : List (List Char)) (content : List Char)
    (hc : content = [] ∨ (pyStrip content ≠ [] ∧ no_provisional_lines content))
    (h : ∀ t ∈ ts, pyStrip t ≠ [] ∧ no_provisional_lines t) :
    ts.foldl (fun c t => transcript_step c (RecEvent.finalRes t)) content = [] ∨
      (pyStrip (ts.foldl (fun c t => transcript_step c (RecEvent.finalRes t)) content) ≠ [] ∧
        no_provisional_lines
          (ts.foldl (fun c t => transcript_step c (RecEvent.finalRes t)) content)) := by
  induction ts generalizing content with
  | nil => simpa using hc
  | cons t ts ih =>
    have ht := h t (List.mem_cons_self t ts)
    have hrest : ∀ u ∈ ts, pyStrip u ≠ [] ∧ no_provisional_lines u :=
      fun u hu => h u (List.mem_cons_of_mem t hu)
    have htne : t ≠ [] := by
      intro e
      exact ht.1 (by rw [e]; rfl)
    simp only [List.foldl_cons]
    apply ih _ ?_ hrest
    rcases hc with rfl | ⟨hne, hfree⟩
    · have hstep : transcript_step [] (RecEvent.finalRes t) = t := by
        simp [transcript_step, htne, update_transcript, pyStrip]
      rw [hstep]
      exact Or.inr ht
    · right
      have hstep : transcript_step content (RecEvent.finalRes t) = content ++ '\n' :: t := by
        simp [transcript_step, htne, update_transcript, hne]
      rw [hstep]
      refine ⟨pyStrip_append_left_ne_nil _ _ hne, ?_⟩
      intro l hl
      rw [splitOn_newline_append] at hl
      rcases List.mem_append.mp hl with h1 | h1
      · exact hfree l h1
      · exact ht.2 l h1

/-- C3 (amended): the claimed invariant holds only without
partial/final interleaving: a session of final results alone never
shows a provisional line, and immediately after any partial update the
last line is the provisional one; but a final result does not convert
the provisional slot — it appends a new line below the existing lines
unchanged — so a provisional line left by an earlier partial can remain
above committed lines (see the counterexample). -/
theorem transcript_provisional_amended :
    (∀ ts : List (List Char), (∀ t ∈ ts, pyStrip t ≠ [] ∧ no_provisional_lines t) →
      no_provisional_lines (run_transcript (ts.map RecEvent.finalRes))) ∧
    (∀ content text : List Char,
      listening_marker <:+
        (((update_partial_transcript content text).splitOn '\n').getLast?).getD []) ∧
    (∀ content text : List Char, pyStrip content ≠ [] →
      (update_transcript content text).splitOn '\n' =
        content.splitOn '\n' ++ text.splitOn '\n') := by
  refine ⟨?_, ?_, ?_⟩
  · intro ts hts
    rw [run_transcript, List.foldl_map]
    rcases run_finals_aux ts [] (Or.inl rfl) hts with he | ⟨_, hfree⟩
    · rw [he]
      exact no_provisional_lines_nil
    · exact hfree
  · intro content text
    simp only [update_partial_transcript]
    cases hcase : ((pyStrip content).splitOn '\n').getLast? with
    | none =>
      simp only [hcase]
      exact suffix_last_line_of_append_tag _ text
    | some last =>
      simp only [hcase]
      cases hsuf : listening_marker.isSuffixOf last with
      | true =>
        rw [if_pos rfl]
        exact suffix_last_line_of_append_tag _ text
      | false =>
        rw [if_neg (by simp)]
        exact suffix_last_line_of_append_tag _ text
  · intro content text hne
    rw [update_transcript, if_pos hne]
    exact splitOn_newline_append content text

/-- Witness for the amended C3 theorem at concrete inputs. -/
theorem transcript_provisional_amended_witness :
    no_provisional_lines (run_transcript ([['b']].map RecEvent.finalRes)) ∧
    listening_marker <:+
      (((update_partial_transcript [] ['a']).splitOn '\n').getLast?).getD [] ∧
    (update_transcript ['x'] ['y']).splitOn '\n' =
      (['x'] : List Char).splitOn '\n' ++ (['y'] : List Char).splitOn '\n' :=
  ⟨transcript_provisional_amended.1 [['b']] (by decide),
    transcript_provisional_amended.2.1 [] ['a'],
    transcript_provisional_amended.2.2 ['x'] ['y'] (by decide)⟩

/-- C3 counterexample: in the session consisting of the partial result
"a" followed by the final result "b", the displayed transcript keeps
the provisional line "a (listening...)" above the committed line "b",
so the claimed at-most-one-provisional-and-last invariant is false. -/
theorem transcript_provisional_counterexample :
    transcript_invariant
      (run_transcript [RecEvent.partRes ['a'], RecEvent.finalRes ['b']]) = false := by
  decide

/-! ### Claims about the external-decoder fallback -/

/-- C9 counterexample: whether the decoder invocation succeeded
(`Decoded`, first argument `true`) or failed and fell back to the raw
input (`AssumedRaw`, first argument `false`), the caller of
`convert_to_wav` can receive the very same value, so the fallback is
not surfaced as a distinguishable outcome. -/
theorem wav_fallback_counterexample :
    convert_to_wav true "temp_audio.wav".data =
      convert_to_wav false "temp_audio.wav".data := by
  decide

/-- C9 (amended): the fallback is applied silently, not explicitly: on
a failed decoder invocation `convert_to_wav` returns the input path
unchanged, with no `Decoded` / `AssumedRaw` tag for the caller; the CLI
path `extract_audio` instead performs no fallback at all and raises an
extraction error. -/
theorem wav_fallback_silent :
    (∀ input_file : List Char, convert_to_wav false input_file = input_file) ∧
    (∀ p : List Char,
      extract_audio false p = Except.error ("Failed to extract audio from ".data ++ p)) ∧
    (∀ p : List Char, extract_audio true p = Except.ok ()) :=
  ⟨fun _ => rfl, fun _ => rfl, fun _ => rfl⟩
